import Mathlib

/-!
Verification of the mlpack preprocess_split tool
(src/mlpack/methods/preprocess/preprocess_split_main.cpp).

The source under verification is the CLI entry point mlpackMain; the core
splitting routine (data::Split of split_data.hpp) and the random number
generator (mlpack::math) are external to the given sources and are modelled
from the specification, as marked on each definition.
-/

namespace Mlpack

variable {α : Type} [Inhabited α]

/-- Modelled from the spec: the process-wide random source seeded by
mlpack::math::RandomSeed is not part of the given sources.  A linear
congruential generator stands in as the deterministic random source; the
spec fixes no concrete generator, only determinism given the seed. -/
def lcgNext (s : ℕ) : ℕ := (s * 1103515245 + 12345) % 2 ^ 31

/-- Modelled from the spec: the PermutationEngine of section 4.1 is not part
of the given sources.  Selection shuffle: at each step a pseudo-random index
of the remaining pool is drawn and that element is removed; the fuel is the
pool size, so every element is drawn exactly once. -/
def sampleAux : ℕ → ℕ → List ℕ → List ℕ
  | _, 0, _ => []
  | s, fuel + 1, rem =>
    if rem.length = 0 then []
    else
      let x := rem.getD (s % rem.length) 0
      x :: sampleAux (lcgNext s) fuel (rem.erase x)

/-- Modelled from the spec: generate(n, seed) of section 4.1 — a permutation
of the indices 0..n-1, determined by the seed. -/
def genPerm (seed n : ℕ) : List ℕ := sampleAux seed n (List.range n)

/-- Reordering of section 4.2 step 1: the point at output position k is the
point originally at position perm(k), that is shuffled(k) = original(perm(k)). -/
def applyPerm (perm : List ℕ) (xs : List α) : List α :=
  perm.map fun i => xs.getD i default

/-- The full shuffled dataset for a given seed, before any cut. -/
def shuffleData (seed : ℕ) (data : List α) : List α :=
  applyPerm (genPerm seed data.length) data

/-- Test-set size of section 4.2 step 3: the reference behavior truncates
ratio times pointCount toward zero (integer conversion of a non-negative
product, hence the floor). -/
def testCountOf (ratio : ℚ) (n : ℕ) : ℕ := (⌊ratio * (n : ℚ)⌋).toNat

/-- Section 4.2 step 4: the first trainCount shuffled points form the
training set, the remaining points the test set. -/
def splitCore (data : List α) (ratio : ℚ) (seed : ℕ) : List α × List α :=
  let n := data.length
  let shuffled := shuffleData seed data
  let trainCount := n - testCountOf ratio n
  (shuffled.take trainCount, shuffled.drop trainCount)

/-- The error taxonomy of section 7. -/
inductive SplitError
  | configurationError
  | shapeMismatch
deriving DecidableEq

/-- Modelled from the spec: data::Split without labels (split_data.hpp is not
part of the given sources).  Fatal on a ratio outside the unit interval, per
the preconditions of section 4.2; otherwise the pair (train, test). -/
def Split (data : List α) (ratio : ℚ) (seed : ℕ) :
    Except SplitError (List α × List α) :=
  if ratio < 0 ∨ 1 < ratio then .error .configurationError
  else .ok (splitCore data ratio seed)

/-- Modelled from the spec: data::Split with labels (split_data.hpp is not
part of the given sources).  Fatal on a ratio outside the unit interval or a
label vector whose length differs from the point count, per section 4.2;
otherwise the identical permutation and the identical cut boundary are
applied to the data and to the labels. -/
def SplitLabeled (data : List α) (labels : List ℕ) (ratio : ℚ) (seed : ℕ) :
    Except SplitError (List α × List α × List ℕ × List ℕ) :=
  if ratio < 0 ∨ 1 < ratio then .error .configurationError
  else if labels.length ≠ data.length then .error .shapeMismatch
  else
    let n := data.length
    let perm := genPerm seed n
    let trainCount := n - testCountOf ratio n
    let sd := applyPerm perm data
    let sl := applyPerm perm labels
    .ok (sd.take trainCount, sd.drop trainCount, sl.take trainCount, sl.drop trainCount)

/-- The warnings the CLI layer can emit (Log::Warn sites of mlpackMain). -/
inductive Warning
  | trainingNotSpecified
  | testNotSpecified
  | trainingLabelsNotSpecified
  | testLabelsNotSpecified
  | trainingLabelsIgnored
  | testLabelsIgnored
  | defaultTestRatio
deriving DecidableEq

/-- The CLI parameter state seen by mlpackMain.  The input_labels matrix is a
list of rows; a has-flag is true when the caller passed the parameter.  The
test_ratio value is meaningful only when hasTestRatio is true: CLI::GetParam
returns the default 0.2 otherwise (see effTestRatio).  The seed parameter
defaults to 0. -/
structure Config (α : Type) where
  input : List α
  inputLabels : Option (List (List ℕ))
  hasTestRatio : Bool
  testRatioVal : ℚ
  seed : ℕ
  hasTraining : Bool
  hasTest : Bool
  hasTrainingLabels : Bool
  hasTestLabels : Bool

/-- The four optional output containers of mlpackMain; a field is none when
the corresponding output parameter was not requested. -/
structure Outputs (α : Type) where
  training : Option (List α)
  test : Option (List α)
  trainingLabels : Option (List ℕ)
  testLabels : Option (List ℕ)

/-- Row 0 of the label matrix, the labels.row(0) extraction of
preprocess_split_main.cpp line 138. -/
def row0 (m : List (List ℕ)) : List ℕ := m.getD 0 []

/-- CLI::GetParam of test_ratio: the passed value, or the default 0.2
(preprocess_split_main.cpp line 64). -/
def effTestRatio (cfg : Config α) : ℚ :=
  if cfg.hasTestRatio then cfg.testRatioVal else 1 / 5

/-- Seed selection of preprocess_split_main.cpp lines 78-81: seed 0 means
seeding from std::time(NULL), any other seed is used directly. -/
def seedUsed (cfg : Config α) (time : ℕ) : ℕ :=
  if cfg.seed = 0 then time else cfg.seed

/-- The warnings of lines 84-113, emitted before the ratio check. -/
def preWarnings (cfg : Config α) : List Warning :=
  (if cfg.hasTraining then [] else [.trainingNotSpecified]) ++
  (if cfg.hasTest then [] else [.testNotSpecified]) ++
  (match cfg.inputLabels with
   | some _ =>
       (if cfg.hasTrainingLabels then [] else [.trainingLabelsNotSpecified]) ++
       (if cfg.hasTestLabels then [] else [.testLabelsNotSpecified])
   | none =>
       (if cfg.hasTrainingLabels then [.trainingLabelsIgnored] else []) ++
       (if cfg.hasTestLabels then [.testLabelsIgnored] else []))

/-- The body of mlpackMain (preprocess_split_main.cpp lines 73-170): seed
selection, warnings, the guarded test_ratio range check of lines 115-128, the
row-0 extraction of the label matrix at line 138, the call to data::Split,
and the assignment of only the requested output parameters.  Log::Fatal is an
abort, so a fatal check yields an error and no outputs.  The current time is
an explicit argument. -/
def mlpackMain (cfg : Config α) (time : ℕ) :
    List Warning × Except SplitError (Outputs α) :=
  let r := effTestRatio cfg
  if cfg.hasTestRatio ∧ (r < 0 ∨ 1 < r) then
    (preWarnings cfg, .error .configurationError)
  else
    let warnings := preWarnings cfg ++
      (if cfg.hasTestRatio then [] else [.defaultTestRatio])
    match cfg.inputLabels with
    | some m =>
        match SplitLabeled cfg.input (row0 m) r (seedUsed cfg time) with
        | .error e => (warnings, .error e)
        | .ok (tr, te, trL, teL) =>
            (warnings, .ok
              { training := if cfg.hasTraining then some tr else none
                test := if cfg.hasTest then some te else none
                trainingLabels := if cfg.hasTrainingLabels then some trL else none
                testLabels := if cfg.hasTestLabels then some teL else none })
    | none =>
        match Split cfg.input r (seedUsed cfg time) with
        | .error e => (warnings, .error e)
        | .ok (tr, te) =>
            (warnings, .ok
              { training := if cfg.hasTraining then some tr else none
                test := if cfg.hasTest then some te else none
                trainingLabels := none
                testLabels := none })

/-! Basic facts about the modelled permutation engine and the shuffle. -/

theorem sampleAux_perm (fuel : ℕ) : ∀ (s : ℕ) (rem : List ℕ), rem.length = fuel →
    (sampleAux s fuel rem).Perm rem := by
  induction fuel with
  | zero =>
      intro s rem h
      rw [List.length_eq_zero] at h
      subst h
      simp [sampleAux]
  | succ n ih =>
      intro s rem h
      have hne : rem.length ≠ 0 := by omega
      have hk : s % rem.length < rem.length := Nat.mod_lt _ (Nat.pos_of_ne_zero hne)
      have hx : rem.getD (s % rem.length) 0 ∈ rem := by
        rw [List.getD_eq_getElem _ _ hk]
        exact List.getElem_mem hk
      have hlen : (rem.erase (rem.getD (s % rem.length) 0)).length = n := by
        rw [List.length_erase_of_mem hx, h]
        omega
      have hstep : sampleAux s (n + 1) rem =
          rem.getD (s % rem.length) 0 ::
            sampleAux (lcgNext s) n (rem.erase (rem.getD (s % rem.length) 0)) := by
        rw [sampleAux, if_neg hne]
      rw [hstep]
      exact ((ih (lcgNext s) _ hlen).cons _).trans (List.perm_cons_erase hx).symm

theorem genPerm_perm (seed n : ℕ) : (genPerm seed n).Perm (List.range n) :=
  sampleAux_perm n seed (List.range n) (List.length_range n)

theorem genPerm_length (seed n : ℕ) : (genPerm seed n).length = n := by
  rw [(genPerm_perm seed n).length_eq, List.length_range]

theorem mem_genPerm_lt {seed n i : ℕ} (h : i ∈ genPerm seed n) : i < n := by
  have := (genPerm_perm seed n).mem_iff.mp h
  simpa [List.mem_range] using this

theorem map_getD_range (l : List α) (d : α) :
    (List.range l.length).map (fun i => l.getD i d) = l := by
  induction l with
  | nil => simp
  | cons a t ih =>
      rw [List.length_cons, List.range_succ_eq_map, List.map_cons, List.map_map]
      simp only [List.getD_cons_zero]
      have hc : ((fun i => (a :: t).getD i d) ∘ Nat.succ) = fun i => t.getD i d := by
        funext i
        simp [Function.comp]
      rw [hc, ih]

theorem applyPerm_length (perm : List ℕ) (xs : List α) :
    (applyPerm perm xs).length = perm.length := List.length_map _ _

theorem shuffleData_perm (seed : ℕ) (data : List α) :
    (shuffleData seed data).Perm data := by
  have h1 : (applyPerm (genPerm seed data.length) data).Perm
      (applyPerm (List.range data.length) data) :=
    (genPerm_perm seed data.length).map _
  have h2 : applyPerm (List.range data.length) data = data := map_getD_range data default
  have h3 : (applyPerm (List.range data.length) data).Perm data := by
    rw [h2]
  rw [shuffleData]
  exact h1.trans h3

theorem shuffleData_length (seed : ℕ) (data : List α) :
    (shuffleData seed data).length = data.length :=
  (shuffleData_perm seed data).length_eq

theorem testCountOf_le {ratio : ℚ} (n : ℕ) (h0 : 0 ≤ ratio) (h1 : ratio ≤ 1) :
    testCountOf ratio n ≤ n := by
  rw [testCountOf]
  have hle : ratio * (n : ℚ) ≤ (n : ℚ) := by
    calc ratio * (n : ℚ) ≤ 1 * (n : ℚ) :=
          mul_le_mul_of_nonneg_right h1 (by positivity)
      _ = (n : ℚ) := one_mul _
  have hf : ⌊ratio * (n : ℚ)⌋ ≤ (n : ℤ) := by
    calc ⌊ratio * (n : ℚ)⌋ ≤ ⌊(n : ℚ)⌋ := Int.floor_le_floor hle
      _ = (n : ℤ) := Int.floor_natCast n
  omega

/-- C1: for every dataset and every ratio in the unit interval, the split
returns a training set and a test set whose point counts sum to the
dataset's point count, and the concatenation of the two halves is a
permutation of the original dataset, so each original point appears exactly
once across the union: the halves are disjoint as occurrences, no point is
dropped and none is duplicated. -/
theorem split_partition (data : List α) (ratio : ℚ) (seed : ℕ)
    (h0 : 0 ≤ ratio) (h1 : ratio ≤ 1) :
    ∃ tr te, Split data ratio seed = .ok (tr, te) ∧
      tr.length + te.length = data.length ∧ (tr ++ te).Perm data := by
  have hr : ¬(ratio < 0 ∨ 1 < ratio) := by
    push_neg
    exact ⟨h0, h1⟩
  have key : (splitCore data ratio seed).1 ++ (splitCore data ratio seed).2 =
      shuffleData seed data := by
    simp only [splitCore]
    exact List.take_append_drop _ _
  refine ⟨(splitCore data ratio seed).1, (splitCore data ratio seed).2, ?_, ?_, ?_⟩
  · rw [Split, if_neg hr]
  · have hlen := congrArg List.length key
    simpa [shuffleData_length] using hlen
  · rw [key]
    exact shuffleData_perm seed data

/-- C1 witness: the partition law at a concrete five-point dataset with
ratio two fifths and seed 7. -/
theorem split_partition_witness :
    0 ≤ (2 / 5 : ℚ) ∧ (2 / 5 : ℚ) ≤ 1 ∧
    ∃ tr te, Split ([10, 20, 30, 40, 50] : List ℕ) (2 / 5) 7 = .ok (tr, te) ∧
      tr.length + te.length = ([10, 20, 30, 40, 50] : List ℕ).length ∧
      (tr ++ te).Perm [10, 20, 30, 40, 50] :=
  ⟨by norm_num, by norm_num,
    split_partition [10, 20, 30, 40, 50] (2 / 5) 7 (by norm_num) (by norm_num)⟩

/-- C4 counterexample: with two points and ratio three quarters the split
keeps one point in the test set, the truncation of 1.5, while rounding
ratio times pointCount gives 2; the claimed rounding rule does not hold. -/
theorem split_testCount_not_round :
    ∃ tr te, Split ([0, 1] : List ℕ) (3 / 4) 1 = .ok (tr, te) ∧
      (te.length : ℤ) ≠ round ((3 / 4 : ℚ) * 2) := by
  have hr : ¬((3 / 4 : ℚ) < 0 ∨ 1 < (3 / 4 : ℚ)) := by norm_num
  have h2 : ([0, 1] : List ℕ).length = 2 := by decide
  have ht : testCountOf (3 / 4) 2 = 1 := by
    norm_num [testCountOf]
  have hround : round ((3 / 4 : ℚ) * 2) = 2 := by
    rw [round_eq]
    norm_num
  refine ⟨[1], [0], ?_, ?_⟩
  · rw [Split, if_neg hr]
    simp only [splitCore, shuffleData, h2, ht, Except.ok.injEq]
    decide
  · rw [hround]
    decide

/-- C4 (amended): the test-set size is the truncation toward zero of ratio
times pointCount, not its rounding; the training-set size is the remainder,
the training set is the first trainCount shuffled points and the test set
the rest.  For five points and ratio two fifths the product is exactly 2, so
the test set has 2 points and the training set 3. -/
theorem split_sizes (data : List α) (ratio : ℚ) (seed : ℕ)
    (h0 : 0 ≤ ratio) (h1 : ratio ≤ 1) :
    ∃ tr te, Split data ratio seed = .ok (tr, te) ∧
      te.length = testCountOf ratio data.length ∧
      tr.length = data.length - testCountOf ratio data.length ∧
      tr = (shuffleData seed data).take (data.length - testCountOf ratio data.length) ∧
      te = (shuffleData seed data).drop (data.length - testCountOf ratio data.length) := by
  have hr : ¬(ratio < 0 ∨ 1 < ratio) := by
    push_neg
    exact ⟨h0, h1⟩
  have htc := testCountOf_le data.length h0 h1
  have hsh := shuffleData_length seed data
  refine ⟨(shuffleData seed data).take (data.length - testCountOf ratio data.length),
          (shuffleData seed data).drop (data.length - testCountOf ratio data.length),
          ?_, ?_, ?_, rfl, rfl⟩
  · rw [Split, if_neg hr]
    simp only [splitCore]
  · rw [List.length_drop, hsh]
    omega
  · rw [List.length_take, hsh]
    omega

/-- C4 witness: the amended size law at five points, ratio two fifths,
seed 7, where the test count evaluates to 2 and the training count to 3. -/
theorem split_sizes_witness :
    0 ≤ (2 / 5 : ℚ) ∧ (2 / 5 : ℚ) ≤ 1 ∧
    testCountOf (2 / 5) ([10, 20, 30, 40, 50] : List ℕ).length = 2 ∧
    (∃ tr te, Split ([10, 20, 30, 40, 50] : List ℕ) (2 / 5) 7 = .ok (tr, te) ∧
      te.length = testCountOf (2 / 5) ([10, 20, 30, 40, 50] : List ℕ).length ∧
      tr.length = ([10, 20, 30, 40, 50] : List ℕ).length -
        testCountOf (2 / 5) ([10, 20, 30, 40, 50] : List ℕ).length ∧
      tr = (shuffleData 7 [10, 20, 30, 40, 50]).take
        (([10, 20, 30, 40, 50] : List ℕ).length -
          testCountOf (2 / 5) ([10, 20, 30, 40, 50] : List ℕ).length) ∧
      te = (shuffleData 7 [10, 20, 30, 40, 50]).drop
        (([10, 20, 30, 40, 50] : List ℕ).length -
          testCountOf (2 / 5) ([10, 20, 30, 40, 50] : List ℕ).length)) :=
  ⟨by norm_num, by norm_num,
    by norm_num [testCountOf]
       decide,
    split_sizes [10, 20, 30, 40, 50] (2 / 5) 7 (by norm_num) (by norm_num)⟩

/-- C5: boundary behavior — ratio zero yields an empty test set and the
full shuffled dataset as training set, ratio one yields an empty training
set and the full shuffled dataset as test set, and the empty dataset splits
without error into two empty outputs for any ratio in the unit interval. -/
theorem split_boundaries (data : List α) (seed : ℕ) (ratio : ℚ)
    (h0 : 0 ≤ ratio) (h1 : ratio ≤ 1) :
    Split data 0 seed = .ok (shuffleData seed data, []) ∧
    Split data 1 seed = .ok ([], shuffleData seed data) ∧
    Split ([] : List α) ratio seed = .ok ([], []) := by
  have hr : ¬(ratio < 0 ∨ 1 < ratio) := by
    push_neg
    exact ⟨h0, h1⟩
  have hsh := shuffleData_length seed data
  refine ⟨?_, ?_, ?_⟩
  · rw [Split, if_neg (by norm_num)]
    have ht0 : testCountOf 0 data.length = 0 := by simp [testCountOf]
    simp only [splitCore, ht0, Nat.sub_zero]
    rw [← hsh, List.take_length, List.drop_length]
  · rw [Split, if_neg (by norm_num)]
    have ht1 : testCountOf 1 data.length = data.length := by
      simp [testCountOf]
    simp only [splitCore, ht1, Nat.sub_self, List.take_zero, List.drop_zero]
  · rw [Split, if_neg hr]
    simp [splitCore, shuffleData, applyPerm, genPerm, sampleAux]

/-- C5 witness: the boundary law at a concrete three-point dataset with
seed 5 and, for the empty-dataset part, ratio one half. -/
theorem split_boundaries_witness :
    0 ≤ (1 / 2 : ℚ) ∧ (1 / 2 : ℚ) ≤ 1 ∧
    (Split ([1, 2, 3] : List ℕ) 0 5 = .ok (shuffleData 5 [1, 2, 3], []) ∧
     Split ([1, 2, 3] : List ℕ) 1 5 = .ok ([], shuffleData 5 [1, 2, 3]) ∧
     Split ([] : List ℕ) (1 / 2) 5 = .ok ([], [])) :=
  ⟨by norm_num, by norm_num,
    split_boundaries [1, 2, 3] 5 (1 / 2) (by norm_num) (by norm_num)⟩

theorem applyPerm_getElem (perm : List ℕ) (xs : List α) (j : ℕ)
    (hj : j < perm.length) (hbound : ∀ i ∈ perm, i < xs.length) :
    ∃ i, i < xs.length ∧ perm[j]? = some i ∧ (applyPerm perm xs)[j]? = xs[i]? := by
  have hmem : perm[j] ∈ perm := List.getElem_mem hj
  have hilt : perm[j] < xs.length := hbound _ hmem
  refine ⟨perm[j], hilt, List.getElem?_eq_getElem hj, ?_⟩
  rw [applyPerm, List.getElem?_map, List.getElem?_eq_getElem hj]
  simp only [Option.map_some']
  rw [List.getD_eq_getElem _ _ hilt, List.getElem?_eq_getElem hilt]

/-- C2: with a label vector of matching length, the split applies the
identical permutation and the identical cut boundary to the labels as to the
data: at every output position of the training half, and of the test half,
the data entry and the label entry come from one and the same original
index. -/
theorem splitLabeled_alignment (data : List α) (labels : List ℕ) (ratio : ℚ)
    (seed : ℕ) (h0 : 0 ≤ ratio) (h1 : ratio ≤ 1)
    (hlen : labels.length = data.length) :
    ∃ tr te trL teL,
      SplitLabeled data labels ratio seed = .ok (tr, te, trL, teL) ∧
      trL.length = tr.length ∧ teL.length = te.length ∧
      (∀ j, j < tr.length → ∃ i, i < data.length ∧
        (genPerm seed data.length)[j]? = some i ∧
        tr[j]? = data[i]? ∧ trL[j]? = labels[i]?) ∧
      (∀ j, j < te.length → ∃ i, i < data.length ∧
        (genPerm seed data.length)[data.length - testCountOf ratio data.length + j]? =
          some i ∧
        te[j]? = data[i]? ∧ teL[j]? = labels[i]?) := by
  have hr : ¬(ratio < 0 ∨ 1 < ratio) := by
    push_neg
    exact ⟨h0, h1⟩
  have hne : ¬(labels.length ≠ data.length) := by simpa using hlen
  have hpl : (genPerm seed data.length).length = data.length :=
    genPerm_length seed data.length
  have hbd : ∀ i ∈ genPerm seed data.length, i < data.length :=
    fun _ hi => mem_genPerm_lt hi
  have hbl : ∀ i ∈ genPerm seed data.length, i < labels.length :=
    fun _ hi => hlen ▸ mem_genPerm_lt hi
  have hld : (applyPerm (genPerm seed data.length) data).length = data.length := by
    rw [applyPerm_length, hpl]
  have hll : (applyPerm (genPerm seed data.length) labels).length = data.length := by
    rw [applyPerm_length, hpl]
  have heq : SplitLabeled data labels ratio seed =
      .ok ((applyPerm (genPerm seed data.length) data).take
             (data.length - testCountOf ratio data.length),
           (applyPerm (genPerm seed data.length) data).drop
             (data.length - testCountOf ratio data.length),
           (applyPerm (genPerm seed data.length) labels).take
             (data.length - testCountOf ratio data.length),
           (applyPerm (genPerm seed data.length) labels).drop
             (data.length - testCountOf ratio data.length)) := by
    rw [SplitLabeled, if_neg hr, if_neg hne]
  refine ⟨_, _, _, _, heq, ?_, ?_, ?_, ?_⟩
  · rw [List.length_take, List.length_take, hld, hll]
  · rw [List.length_drop, List.length_drop, hld, hll]
  · intro j hj
    rw [List.length_take, hld] at hj
    have hjtake : j < data.length - testCountOf ratio data.length := lt_min_iff.mp hj |>.1
    have hjp : j < (genPerm seed data.length).length := by
      rw [hpl]
      exact lt_min_iff.mp hj |>.2
    obtain ⟨i, hi, hpj, hd⟩ := applyPerm_getElem (genPerm seed data.length) data j hjp hbd
    obtain ⟨i2, hi2, hpj2, hl⟩ :=
      applyPerm_getElem (genPerm seed data.length) labels j hjp hbl
    have hii : i2 = i := by
      rw [hpj] at hpj2
      exact Option.some.inj hpj2.symm
    subst hii
    refine ⟨i2, hi, hpj, ?_, ?_⟩
    · rw [List.getElem?_take_of_lt hjtake, hd]
    · rw [List.getElem?_take_of_lt hjtake, hl]
  · intro j hj
    rw [List.length_drop, hld] at hj
    have hjp : data.length - testCountOf ratio data.length + j <
        (genPerm seed data.length).length := by
      rw [hpl]
      omega
    obtain ⟨i, hi, hpj, hd⟩ :=
      applyPerm_getElem (genPerm seed data.length) data
        (data.length - testCountOf ratio data.length + j) hjp hbd
    obtain ⟨i2, hi2, hpj2, hl⟩ :=
      applyPerm_getElem (genPerm seed data.length) labels
        (data.length - testCountOf ratio data.length + j) hjp hbl
    have hii : i2 = i := by
      rw [hpj] at hpj2
      exact Option.some.inj hpj2.symm
    subst hii
    refine ⟨i2, hi, hpj, ?_, ?_⟩
    · rw [List.getElem?_drop, hd]
    · rw [List.getElem?_drop, hl]

/-- C2 witness: the alignment law at a concrete five-point dataset with
labels 1..5, ratio two fifths and seed 3. -/
theorem splitLabeled_alignment_witness :
    0 ≤ (2 / 5 : ℚ) ∧ (2 / 5 : ℚ) ≤ 1 ∧
    ([1, 2, 3, 4, 5] : List ℕ).length = ([10, 20, 30, 40, 50] : List ℕ).length ∧
    (∃ tr te trL teL,
      SplitLabeled ([10, 20, 30, 40, 50] : List ℕ) [1, 2, 3, 4, 5] (2 / 5) 3 =
        .ok (tr, te, trL, teL) ∧
      trL.length = tr.length ∧ teL.length = te.length ∧
      (∀ j, j < tr.length → ∃ i, i < ([10, 20, 30, 40, 50] : List ℕ).length ∧
        (genPerm 3 ([10, 20, 30, 40, 50] : List ℕ).length)[j]? = some i ∧
        tr[j]? = ([10, 20, 30, 40, 50] : List ℕ)[i]? ∧
        trL[j]? = ([1, 2, 3, 4, 5] : List ℕ)[i]?) ∧
      (∀ j, j < te.length → ∃ i, i < ([10, 20, 30, 40, 50] : List ℕ).length ∧
        (genPerm 3 ([10, 20, 30, 40, 50] : List ℕ).length)[
          ([10, 20, 30, 40, 50] : List ℕ).length -
            testCountOf (2 / 5) ([10, 20, 30, 40, 50] : List ℕ).length + j]? = some i ∧
        te[j]? = ([10, 20, 30, 40, 50] : List ℕ)[i]? ∧
        teL[j]? = ([1, 2, 3, 4, 5] : List ℕ)[i]?)) :=
  ⟨by norm_num, by norm_num, by decide,
    splitLabeled_alignment [10, 20, 30, 40, 50] [1, 2, 3, 4, 5] (2 / 5) 3
      (by norm_num) (by norm_num) (by decide)⟩

/-! Facts about the CLI flow of mlpackMain. -/

theorem mlpackMain_of_badRatio (cfg : Config α) (time : ℕ)
    (h : cfg.hasTestRatio ∧ (effTestRatio cfg < 0 ∨ 1 < effTestRatio cfg)) :
    mlpackMain cfg time = (preWarnings cfg, .error .configurationError) := by
  simp only [mlpackMain, if_pos h]

theorem splitLabeled_ne_config (data : List α) (labels : List ℕ) (ratio : ℚ)
    (seed : ℕ) (hr : ¬(ratio < 0 ∨ 1 < ratio)) :
    SplitLabeled data labels ratio seed ≠ .error .configurationError := by
  rw [SplitLabeled, if_neg hr]
  by_cases hm : labels.length ≠ data.length
  · rw [if_pos hm]
    simp
  · rw [if_neg hm]
    simp

theorem mlpackMain_snd_ne_config (cfg : Config α) (time : ℕ)
    (h0 : 0 ≤ effTestRatio cfg) (h1 : effTestRatio cfg ≤ 1) :
    (mlpackMain cfg time).2 ≠ .error .configurationError := by
  have hr : ¬(effTestRatio cfg < 0 ∨ 1 < effTestRatio cfg) := by
    push_neg
    exact ⟨h0, h1⟩
  have hcond : ¬(cfg.hasTestRatio ∧ (effTestRatio cfg < 0 ∨ 1 < effTestRatio cfg)) :=
    fun hc => hr hc.2
  simp only [mlpackMain, if_neg hcond]
  cases hL : cfg.inputLabels with
  | none =>
      simp only []
      rw [Split, if_neg hr]
      simp
  | some m =>
      simp only []
      cases hS : SplitLabeled cfg.input (row0 m)
          (effTestRatio cfg) (seedUsed cfg time) with
      | error e =>
          have hne := splitLabeled_ne_config cfg.input (row0 m)
            (effTestRatio cfg) (seedUsed cfg time) hr
          rw [hS] at hne
          simpa using hne
      | ok q =>
          obtain ⟨tr, te, trL, teL⟩ := q
          simp

/-- C3: a test ratio outside the unit interval makes the run abort with the
configuration error and no output containers, only the warnings emitted up
to the check; a ratio inside the unit interval never raises that error. -/
theorem ratio_range_check (cfg : Config α) (time : ℕ) :
    (effTestRatio cfg < 0 ∨ 1 < effTestRatio cfg →
      mlpackMain cfg time = (preWarnings cfg, .error .configurationError)) ∧
    (0 ≤ effTestRatio cfg → effTestRatio cfg ≤ 1 →
      (mlpackMain cfg time).2 ≠ .error .configurationError) := by
  constructor
  · intro h
    have hset : cfg.hasTestRatio := by
      by_contra hns
      have hd : effTestRatio cfg = 1 / 5 := by
        rw [effTestRatio, if_neg hns]
      rw [hd] at h
      norm_num at h
    exact mlpackMain_of_badRatio cfg time ⟨hset, h⟩
  · exact mlpackMain_snd_ne_config cfg time

/-- C3 witness: a config with an explicit test ratio of 2 aborts with the
configuration error and no outputs. -/
theorem ratio_range_check_witness :
    (1 : ℚ) < effTestRatio (⟨[1, 2], none, true, 2, 1, true, true, false, false⟩ : Config ℕ) ∧
    mlpackMain (⟨[1, 2], none, true, 2, 1, true, true, false, false⟩ : Config ℕ) 0 =
      (preWarnings (⟨[1, 2], none, true, 2, 1, true, true, false, false⟩ : Config ℕ),
        .error .configurationError) :=
  ⟨by norm_num [effTestRatio],
    (ratio_range_check _ 0).1 (Or.inr (by norm_num [effTestRatio]))⟩

/-- C10: the range check runs only when the caller passed test_ratio, so a
configuration-error abort implies the parameter was explicitly set; on the
defaulted path the check is skipped and no configuration error can arise. -/
theorem check_only_when_set (cfg : Config α) (time : ℕ)
    (h : (mlpackMain cfg time).2 = .error .configurationError) :
    cfg.hasTestRatio = true := by
  by_contra hns
  have hfalse : ¬cfg.hasTestRatio = true := hns
  have hd : effTestRatio cfg = 1 / 5 := by
    rw [effTestRatio, if_neg hfalse]
  exact mlpackMain_snd_ne_config cfg time
    (by rw [hd]; norm_num) (by rw [hd]; norm_num) h

/-- C10 witness: a run that does abort with the configuration error, where
the conclusion confirms test_ratio was explicitly passed. -/
theorem check_only_when_set_witness :
    (mlpackMain (⟨[1, 2], none, true, 2, 1, true, true, false, false⟩ : Config ℕ) 0).2 =
      .error .configurationError ∧
    (⟨[1, 2], none, true, 2, 1, true, true, false, false⟩ : Config ℕ).hasTestRatio = true := by
  have h : (mlpackMain (⟨[1, 2], none, true, 2, 1, true, true, false, false⟩ : Config ℕ) 0).2 =
      .error .configurationError := by
    have hb : (⟨[1, 2], none, true, 2, 1, true, true, false, false⟩ : Config ℕ).hasTestRatio ∧
        (effTestRatio (⟨[1, 2], none, true, 2, 1, true, true, false, false⟩ : Config ℕ) < 0 ∨
          1 < effTestRatio (⟨[1, 2], none, true, 2, 1, true, true, false, false⟩ : Config ℕ)) := by
      refine ⟨rfl, Or.inr ?_⟩
      norm_num [effTestRatio]
    rw [mlpackMain_of_badRatio _ 0 hb]
  exact ⟨h, check_only_when_set _ 0 h⟩

/-- C6: a nonzero seed is used directly as the deterministic seed of the
random source, so two runs with identical configuration at different current
times give bit-identical warnings and outputs; with seed 0 the random
source is seeded from the current time instead. -/
theorem seed_determinism (cfg : Config α) (t1 t2 : ℕ) :
    (cfg.seed ≠ 0 → mlpackMain cfg t1 = mlpackMain cfg t2) ∧
    (cfg.seed = 0 → seedUsed cfg t1 = t1) := by
  constructor
  · intro h
    have hs : ∀ t : ℕ, seedUsed cfg t = cfg.seed := fun t => by
      rw [seedUsed, if_neg h]
    simp only [mlpackMain, hs]
  · intro h
    rw [seedUsed, if_pos h]

/-- C6 witness: with seed 5 the result is the same at times 0 and 99; with
seed 0 the seed in use equals the current time 123. -/
theorem seed_determinism_witness :
    ((⟨[1, 2], none, false, 0, 5, true, true, false, false⟩ : Config ℕ).seed ≠ 0 ∧
      mlpackMain (⟨[1, 2], none, false, 0, 5, true, true, false, false⟩ : Config ℕ) 0 =
        mlpackMain (⟨[1, 2], none, false, 0, 5, true, true, false, false⟩ : Config ℕ) 99) ∧
    ((⟨[1, 2], none, false, 0, 0, true, true, false, false⟩ : Config ℕ).seed = 0 ∧
      seedUsed (⟨[1, 2], none, false, 0, 0, true, true, false, false⟩ : Config ℕ) 123 = 123) :=
  ⟨⟨by decide, (seed_determinism _ 0 99).1 (by decide)⟩,
   ⟨rfl, (seed_determinism _ 123 0).2 rfl⟩⟩

/-- C7: when the caller did not pass test_ratio, the effective ratio used
for the split is the default one fifth (0.2), and the warning that the
default was applied is emitted. -/
theorem default_ratio_warning (cfg : Config α) (time : ℕ)
    (h : cfg.hasTestRatio = false) :
    effTestRatio cfg = 1 / 5 ∧
    Warning.defaultTestRatio ∈ (mlpackMain cfg time).1 := by
  have hb : ¬cfg.hasTestRatio = true := by simp [h]
  have he : effTestRatio cfg = 1 / 5 := by rw [effTestRatio, if_neg hb]
  refine ⟨he, ?_⟩
  have hcond : ¬(cfg.hasTestRatio ∧ (effTestRatio cfg < 0 ∨ 1 < effTestRatio cfg)) :=
    fun hc => hb hc.1
  simp only [mlpackMain, if_neg hcond]
  cases hL : cfg.inputLabels with
  | none =>
      simp only []
      cases hS : Split cfg.input (effTestRatio cfg) (seedUsed cfg time) with
      | error e => simp [h]
      | ok q =>
          obtain ⟨tr, te⟩ := q
          simp [h]
  | some m =>
      simp only []
      cases hS : SplitLabeled cfg.input (row0 m) (effTestRatio cfg) (seedUsed cfg time) with
      | error e => simp [h]
      | ok q =>
          obtain ⟨tr, te, trL, teL⟩ := q
          simp [h]

/-- C7 witness: a config that leaves test_ratio unset gets ratio one fifth
and the default warning. -/
theorem default_ratio_warning_witness :
    (⟨[1, 2], none, false, 0, 1, true, true, false, false⟩ : Config ℕ).hasTestRatio = false ∧
    (effTestRatio (⟨[1, 2], none, false, 0, 1, true, true, false, false⟩ : Config ℕ) = 1 / 5 ∧
      Warning.defaultTestRatio ∈
        (mlpackMain (⟨[1, 2], none, false, 0, 1, true, true, false, false⟩ : Config ℕ) 0).1) :=
  ⟨rfl, default_ratio_warning _ 0 rfl⟩

/-- C8: a supplied label matrix whose row 0 has a length different from the
dataset's point count makes the run fail with the shape mismatch error and
no output containers, provided the ratio check passed; labels are never
silently truncated or padded. -/
theorem label_shape_mismatch (cfg : Config α) (time : ℕ) (m : List (List ℕ))
    (hL : cfg.inputLabels = some m)
    (hm : (row0 m).length ≠ cfg.input.length)
    (h0 : 0 ≤ effTestRatio cfg) (h1 : effTestRatio cfg ≤ 1) :
    (mlpackMain cfg time).2 = .error .shapeMismatch := by
  have hr : ¬(effTestRatio cfg < 0 ∨ 1 < effTestRatio cfg) := by
    push_neg
    exact ⟨h0, h1⟩
  have hcond : ¬(cfg.hasTestRatio ∧ (effTestRatio cfg < 0 ∨ 1 < effTestRatio cfg)) :=
    fun hc => hr hc.2
  have hS : SplitLabeled cfg.input (row0 m) (effTestRatio cfg) (seedUsed cfg time) =
      .error .shapeMismatch := by
    rw [SplitLabeled, if_neg hr, if_pos hm]
  simp only [mlpackMain, if_neg hcond, hL]
  rw [hS]

/-- C8 witness: ten data points with nine labels in row 0 of the label
matrix fail with the shape mismatch error. -/
theorem label_shape_mismatch_witness :
    (⟨[1, 2, 3, 4, 5, 6, 7, 8, 9, 10], some [[1, 2, 3, 4, 5, 6, 7, 8, 9]],
        false, 0, 1, true, true, true, true⟩ : Config ℕ).inputLabels =
      some [[1, 2, 3, 4, 5, 6, 7, 8, 9]] ∧
    (row0 [[1, 2, 3, 4, 5, 6, 7, 8, 9]]).length ≠
      (⟨[1, 2, 3, 4, 5, 6, 7, 8, 9, 10], some [[1, 2, 3, 4, 5, 6, 7, 8, 9]],
          false, 0, 1, true, true, true, true⟩ : Config ℕ).input.length ∧
    0 ≤ effTestRatio (⟨[1, 2, 3, 4, 5, 6, 7, 8, 9, 10], some [[1, 2, 3, 4, 5, 6, 7, 8, 9]],
        false, 0, 1, true, true, true, true⟩ : Config ℕ) ∧
    effTestRatio (⟨[1, 2, 3, 4, 5, 6, 7, 8, 9, 10], some [[1, 2, 3, 4, 5, 6, 7, 8, 9]],
        false, 0, 1, true, true, true, true⟩ : Config ℕ) ≤ 1 ∧
    (mlpackMain (⟨[1, 2, 3, 4, 5, 6, 7, 8, 9, 10], some [[1, 2, 3, 4, 5, 6, 7, 8, 9]],
        false, 0, 1, true, true, true, true⟩ : Config ℕ) 0).2 = .error .shapeMismatch :=
  ⟨rfl, by decide, by norm_num [effTestRatio], by norm_num [effTestRatio],
    label_shape_mismatch _ 0 _ rfl (by decide)
      (by norm_num [effTestRatio]) (by norm_num [effTestRatio])⟩

/-- C9: only row 0 of the input_labels matrix influences the run —
replacing the matrix by any other matrix with the same row 0 leaves the
warnings and all four outputs unchanged. -/
theorem labels_row0_only (cfg : Config α) (time : ℕ) (m m2 : List (List ℕ))
    (hL : cfg.inputLabels = some m) (hrow : row0 m = row0 m2) :
    mlpackMain cfg time = mlpackMain { cfg with inputLabels := some m2 } time := by
  obtain ⟨inp, lbls, htr, rv, sd, b1, b2, b3, b4⟩ := cfg
  have hL2 : lbls = some m := hL
  subst hL2
  have he : effTestRatio (⟨inp, some m2, htr, rv, sd, b1, b2, b3, b4⟩ : Config α) =
      effTestRatio (⟨inp, some m, htr, rv, sd, b1, b2, b3, b4⟩ : Config α) := rfl
  have hs : seedUsed (⟨inp, some m2, htr, rv, sd, b1, b2, b3, b4⟩ : Config α) time =
      seedUsed (⟨inp, some m, htr, rv, sd, b1, b2, b3, b4⟩ : Config α) time := rfl
  have hw : preWarnings (⟨inp, some m2, htr, rv, sd, b1, b2, b3, b4⟩ : Config α) =
      preWarnings (⟨inp, some m, htr, rv, sd, b1, b2, b3, b4⟩ : Config α) := by
    simp [preWarnings]
  simp only [mlpackMain]
  rw [he, hs, hw, hrow]

/-- C9 witness: two label matrices sharing row 0 but differing in row 1
give the same result. -/
theorem labels_row0_only_witness :
    (⟨[1, 2], some [[7, 8], [1, 1]], false, 0, 1, true, true, true, true⟩ :
        Config ℕ).inputLabels = some [[7, 8], [1, 1]] ∧
    row0 [[7, 8], [1, 1]] = row0 [[7, 8], [2, 2]] ∧
    mlpackMain (⟨[1, 2], some [[7, 8], [1, 1]], false, 0, 1, true, true, true, true⟩ :
        Config ℕ) 0 =
      mlpackMain (⟨[1, 2], some [[7, 8], [2, 2]], false, 0, 1, true, true, true, true⟩ :
        Config ℕ) 0 :=
  ⟨rfl, by decide,
    labels_row0_only _ 0 [[7, 8], [1, 1]] [[7, 8], [2, 2]] rfl (by decide)⟩

end Mlpack
